import Mathlib

/- A verification development of the pupil-tracking pipeline in
src/iot/noir_camera/video_processing.py (class PupilTracker).

Modelling conventions: pixel samples are Nat with explicit 8-bit saturation
where OpenCV saturates; the double-precision arithmetic of OpenCV and Python
is idealised as exact rational arithmetic, with Python's math.pi replaced by
the exact rational value of the IEEE-754 double nearest to pi, and
round-half-to-even rounding modelled explicitly.  External OpenCV geometry
(findContours, contourArea, arcLength, fitEllipse) enters as parameters of
the embedded functions; per-pixel OpenCV operations (convertScaleAbs,
medianBlur, threshold, minMaxLoc) are modelled concretely. -/

namespace VideoProcessing

/-- Round half to even, the rounding used by OpenCV's cvRound and Python's
builtin round. -/
def roundHalfEven (q : ℚ) : ℤ :=
  if q - ⌊q⌋ < 1/2 then ⌊q⌋
  else if 1/2 < q - ⌊q⌋ then ⌊q⌋ + 1
  else if ⌊q⌋ % 2 = 0 then ⌊q⌋ else ⌊q⌋ + 1

/-- Saturation cast to the 8-bit range, as OpenCV's saturate_cast to uchar. -/
def satU8 (z : ℤ) : ℕ := (min 255 (max 0 z)).toNat

/-- One sample through cv2.convertScaleAbs: saturate(round(|x * alpha + beta|)).
Note that the scale alpha multiplies the raw sample and the offset beta is
added afterwards. -/
def convertScaleAbsSample (alpha beta : ℚ) (x : ℕ) : ℕ :=
  satU8 (roundHalfEven |(x : ℚ) * alpha + beta|)

/-- Minimum sample value of a frame, as returned by cv2.minMaxLoc
(0 on an empty frame, which minMaxLoc never receives). -/
def frameMin (f : List (List ℕ)) : ℕ :=
  match f.flatten with
  | [] => 0
  | x :: xs => xs.foldl min x

/-- Maximum sample value of a frame, as returned by cv2.minMaxLoc. -/
def frameMax (f : List (List ℕ)) : ℕ :=
  match f.flatten with
  | [] => 0
  | x :: xs => xs.foldl max x

/-- The contrast stretch applied to one sample of frame `f`:
cv2.convertScaleAbs(f, alpha = 255.0/(max_val - min_val + 1), beta = -min_val). -/
def stretchSample (f : List (List ℕ)) (x : ℕ) : ℕ :=
  convertScaleAbsSample (255 / ((frameMax f : ℚ) - (frameMin f : ℚ) + 1))
    (-(frameMin f : ℚ)) x

/-- The contrast-stretch step of find_best_pupil applied to a whole frame. -/
def stretchFrame (f : List (List ℕ)) : List (List ℕ) :=
  f.map (List.map (stretchSample f))

/-- The exact rational value of Python's math.pi (the IEEE-754 double nearest
to pi). -/
def mathPi : ℚ := 884279719003555 / 281474976710656

/-- A contour as produced by cv2.findContours: a list of integer points. -/
abbrev Contour := List (ℤ × ℤ)

/-- The data derived from one contour inside the threshold loop of
find_best_pupil: its cv2.contourArea, its cv2.arcLength (perimeter) and its
number of stored boundary points (len(contour)). -/
structure Candidate where
  area : ℚ
  perimeter : ℚ
  npoints : ℕ
  deriving DecidableEq

/-- circularity = (4 * math.pi * area) / (perimeter ** 2). -/
def circularity (c : Candidate) : ℚ := 4 * mathPi * c.area / c.perimeter ^ 2

/-- score = circularity * area. -/
def score (c : Candidate) : ℚ := circularity c * c.area

/-- A candidate passes all static filters of the threshold loop:
40 < area < 27000, nonzero perimeter, circularity > 0.20 and at least 5
stored points (the float literal 0.20 is idealised as the exact 1/5). -/
def survives (c : Candidate) : Prop :=
  (40 < c.area ∧ c.area < 27000) ∧ c.perimeter ≠ 0 ∧
    1/5 < circularity c ∧ 5 ≤ c.npoints

instance instDecidableSurvives (c : Candidate) : Decidable (survives c) :=
  decidable_of_iff ((40 < c.area ∧ c.area < 27000) ∧ c.perimeter ≠ 0 ∧
    1/5 < circularity c ∧ 5 ≤ c.npoints) Iff.rfl

/-- The state of the threshold loop of find_best_pupil: best_candidate and
highest_score, updated on each contour in scan order.  A contour updates the
state exactly when it passes every filter and strictly beats highest_score. -/
def scanAux : Option Candidate → ℚ → List Candidate → Option Candidate × ℚ
  | b, hs, [] => (b, hs)
  | b, hs, c :: rest =>
    if survives c ∧ hs < score c then scanAux (some c) (score c) rest
    else scanAux b hs rest

/-- The best candidate over the whole threshold scan of find_best_pupil,
starting from best_candidate = None and highest_score = 0; the input list is
all contours' data in threshold-scan order. -/
def scanCandidates (cands : List Candidate) : Option Candidate :=
  (scanAux none 0 cands).1

/-- The ellipse data used by find_best_pupil from cv2.fitEllipse: centre
(cx, cy) and bounding-box extents (w, h); the rotation angle is discarded by
the code. -/
structure Ellipse where
  cx : ℚ
  cy : ℚ
  w : ℚ
  h : ℚ
  deriving DecidableEq

/-- Python's round(x, 2): round half to even at two decimal places. -/
def pyRound2 (q : ℚ) : ℚ := (roundHalfEven (q * 100) : ℚ) / 100

/-- The selection-and-classification core of find_best_pupil (the threshold
scan, blink detection and result assembly), over the list of all contour data
in threshold-scan order.  `fit` is the external cv2.fitEllipse.  The result
is the tuple (is_blink, cx, cy, area). -/
def find_best_pupil (fit : Candidate → Ellipse) (cands : List Candidate) :
    Bool × ℚ × ℚ × ℚ :=
  match scanCandidates cands with
  | none => (true, 0, 0, 0)
  | some c =>
    let e := fit c
    if e.h < e.w * (1/5) ∨ c.area < 400 then (true, 0, 0, 0)
    else (false, pyRound2 e.cx, pyRound2 e.cy, pyRound2 c.area)

/-- A grayscale frame: rows of 8-bit samples. -/
abbrev Frame := List (List ℕ)

/-- The per-frame output tuple of process_frame:
(frame_count, blink, cx, cy, area). -/
structure MetricsRecord where
  frame_index : ℕ
  blink : Bool
  cx : ℚ
  cy : ℚ
  area : ℚ
  deriving DecidableEq

/-- The mutable state of a PupilTracker: whether a camera handle is held
(picam2 is not None), the frame counter, and an instrumentation field
counting how many times picam2.stop() has been invoked on the held handle. -/
structure PupilTracker where
  picam2 : Bool
  frame_count : ℕ
  stops : ℕ
  deriving DecidableEq

/-- PupilTracker.process_frame.  The camera capture result is passed as
`captured` (none models capture_array yielding no frame) and the
frame-to-metrics computation find_best_pupil, together with the Y-plane
extraction, is abstracted as `pupil`.  Mirrors the source order: the guard on
picam2, then capture, then the counter increment, then the None check. -/
def process_frame (pupil : Frame → Bool × ℚ × ℚ × ℚ) (s : PupilTracker)
    (captured : Option Frame) : PupilTracker × Option MetricsRecord :=
  if s.picam2 = false then (s, none)
  else
    let s' : PupilTracker := { s with frame_count := s.frame_count + 1 }
    match captured with
    | none => (s', none)
    | some fr =>
      let m := pupil fr
      (s', some ⟨s'.frame_count, m.1, m.2.1, m.2.2.1, m.2.2.2⟩)

/-- A sequence of process_frame calls on one tracker, given the capture
outcome of each call; returns the final state and the per-call results. -/
def runTrace (pupil : Frame → Bool × ℚ × ℚ × ℚ) :
    PupilTracker → List (Option Frame) → PupilTracker × List (Option MetricsRecord)
  | s, [] => (s, [])
  | s, c :: cs =>
    let p := process_frame pupil s c
    let rest := runTrace pupil p.1 cs
    (rest.1, p.2 :: rest.2)

/-- PupilTracker.end_session: stop and clear the camera handle if one is
held, otherwise do nothing. -/
def end_session (s : PupilTracker) : PupilTracker :=
  if s.picam2 = true then { s with picam2 := false, stops := s.stops + 1 }
  else s

/-- Clamp an index into [0, n-1], modelling replicated-border access. -/
def clampIdx (i : ℤ) (n : ℕ) : ℕ :=
  if i < 0 then 0 else if (n : ℤ) ≤ i then n - 1 else i.toNat

/-- Read a pixel with replicated borders, as cv2.medianBlur does at the
image edge. -/
def getPix (img : List (List ℕ)) (i j : ℤ) : ℕ :=
  (img.getD (clampIdx i img.length) []).getD
    (clampIdx j (img.getD (clampIdx i img.length) []).length) 0

/-- The 9 x 9 neighbourhood of (i, j), read with replicated borders. -/
def window9 (img : List (List ℕ)) (i j : ℕ) : List ℕ :=
  (List.range 9).flatMap fun di =>
    (List.range 9).map fun dj =>
      getPix img ((i : ℤ) + di - 4) ((j : ℤ) + dj - 4)

/-- The median of a list of samples: the middle element of a sorted copy. -/
def listMedian (l : List ℕ) : ℕ :=
  (l.insertionSort (· ≤ ·)).getD (l.length / 2) 0

/-- cv2.medianBlur(img, 9): every sample replaced by the median of its 9 x 9
neighbourhood, with replicated borders. -/
def medianBlur (img : List (List ℕ)) : List (List ℕ) :=
  (List.range img.length).map fun i =>
    (List.range (img.getD i []).length).map fun j =>
      listMedian (window9 img i j)

/-- cv2.threshold(img, t, 255, THRESH_BINARY_INV): 0 where the sample
exceeds the threshold, 255 elsewhere. -/
def thresholdInv (img : List (List ℕ)) (t : ℕ) : List (List ℕ) :=
  img.map (List.map fun x => if t < x then 0 else 255)

/-- The fixed ascending dark-threshold levels of find_best_pupil. -/
def thresholdLevels : List ℕ := [25, 45, 65, 85]

/-- The data derived from one contour: cv2.contourArea, cv2.arcLength and
the stored point count len(contour). -/
def mkCandidate (cArea cLen : Contour → ℚ) (ct : Contour) : Candidate :=
  ⟨cArea ct, cLen ct, ct.length⟩

/-- The whole of find_best_pupil at the frame level: contrast stretch, 9 x 9
median blur, the four-threshold contour scan, and the selection and
blink-classification core.  The external cv2 geometry enters as parameters:
`fc` is cv2.findContours (RETR_EXTERNAL, CHAIN_APPROX_SIMPLE), `cArea` is
cv2.contourArea, `cLen` is cv2.arcLength and `fit` is cv2.fitEllipse. -/
def findBestPupilFrame (fc : List (List ℕ) → List Contour)
    (cArea cLen : Contour → ℚ) (fit : Candidate → Ellipse)
    (f : List (List ℕ)) : Bool × ℚ × ℚ × ℚ :=
  find_best_pupil fit
    (thresholdLevels.flatMap fun t =>
      (fc (thresholdInv (medianBlur (stretchFrame f)) t)).map
        (mkCandidate cArea cLen))

/-- Soundness of the threshold-loop state machine: if the loop over `l`
starting from state `(b, hs)` ends with best candidate `c`, then either the
state never changed, or `c` is a surviving candidate that strictly beat `hs`
and every earlier surviving candidate, and at least ties every later one. -/
lemma scanAux_sound (l : List Candidate) : ∀ (b : Option Candidate) (hs : ℚ)
    (c : Candidate), (scanAux b hs l).1 = some c →
    (b = some c ∧ (scanAux b hs l).2 = hs ∧ ∀ d ∈ l, survives d → score d ≤ hs)
    ∨ (∃ pre post, l = pre ++ c :: post ∧ survives c ∧ hs < score c ∧
        (∀ d ∈ pre, survives d → score d < score c) ∧
        (∀ d ∈ post, survives d → score d ≤ score c) ∧
        (scanAux b hs l).2 = score c) := by
  induction l with
  | nil =>
    intro b hs c h
    exact Or.inl ⟨h, rfl, by simp⟩
  | cons c' rest ih =>
    intro b hs c h
    by_cases hc : survives c' ∧ hs < score c'
    · simp only [scanAux, if_pos hc] at h ⊢
      rcases ih (some c') (score c') c h with ⟨hb, h2, hall⟩ |
        ⟨pre, post, heq, hsv, hgt, hpre, hpost, hsc⟩
      · obtain rfl : c' = c := by injection hb
        exact Or.inr ⟨[], rest, by simp, hc.1, hc.2, by simp, hall, h2⟩
      · refine Or.inr ⟨c' :: pre, post, by simp [heq], hsv,
          lt_trans hc.2 hgt, ?_, hpost, hsc⟩
        intro d hd hsd
        rcases List.mem_cons.mp hd with rfl | hd'
        · exact hgt
        · exact hpre d hd' hsd
    · simp only [scanAux, if_neg hc] at h ⊢
      rcases ih b hs c h with ⟨hb, h2, hall⟩ |
        ⟨pre, post, heq, hsv, hgt, hpre, hpost, hsc⟩
      · refine Or.inl ⟨hb, h2, ?_⟩
        intro d hd hsd
        rcases List.mem_cons.mp hd with rfl | hd'
        · exact le_of_not_lt (fun hlt => hc ⟨hsd, hlt⟩)
        · exact hall d hd' hsd
      · refine Or.inr ⟨c' :: pre, post, by simp [heq], hsv, hgt, ?_, hpost, hsc⟩
        intro d hd hsd
        rcases List.mem_cons.mp hd with rfl | hd'
        · exact lt_of_le_of_lt (le_of_not_lt (fun hlt => hc ⟨hsd, hlt⟩)) hgt
        · exact hpre d hd' hsd

/-- The candidate returned by the threshold scan passed every filter, came
from the scanned list, and its score is maximal among all survivors. -/
lemma scanCandidates_some (cands : List Candidate) (c : Candidate)
    (h : scanCandidates cands = some c) :
    survives c ∧ c ∈ cands ∧ ∀ d ∈ cands, survives d → score d ≤ score c := by
  rcases scanAux_sound cands none 0 c h with ⟨hb, _, _⟩ |
    ⟨pre, post, heq, hsv, _, hpre, hpost, _⟩
  · exact absurd hb (by simp)
  · subst heq
    refine ⟨hsv, List.mem_append.mpr (Or.inr (List.mem_cons_self c post)), ?_⟩
    intro d hd hsd
    rcases List.mem_append.mp hd with hd' | hd'
    · exact le_of_lt (hpre d hd' hsd)
    · rcases List.mem_cons.mp hd' with rfl | hd''
      · exact le_refl _
      · exact hpost d hd'' hsd

/-- Once best_candidate is set it never becomes None again. -/
lemma scanAux_fst_isSome (l : List Candidate) : ∀ (x : Candidate) (hs : ℚ),
    ((scanAux (some x) hs l).1).isSome := by
  induction l with
  | nil => intro x hs; simp [scanAux]
  | cons c' rest ih =>
    intro x hs
    by_cases hc : survives c' ∧ hs < score c'
    · simp only [scanAux, if_pos hc]; exact ih c' (score c')
    · simp only [scanAux, if_neg hc]; exact ih x hs

/-- If some scanned candidate survives and strictly beats the incoming
highest_score, the scan ends with a best candidate. -/
lemma scanAux_isSome_of_survivor (l : List Candidate) :
    ∀ (b : Option Candidate) (hs : ℚ), (∃ d ∈ l, survives d ∧ hs < score d) →
    ((scanAux b hs l).1).isSome := by
  induction l with
  | nil => intro b hs h; simp at h
  | cons c' rest ih =>
    intro b hs h
    by_cases hc : survives c' ∧ hs < score c'
    · simp only [scanAux, if_pos hc]; exact scanAux_fst_isSome rest c' (score c')
    · simp only [scanAux, if_neg hc]
      obtain ⟨d, hd, hsd, hlt⟩ := h
      rcases List.mem_cons.mp hd with rfl | hd'
      · exact absurd ⟨hsd, hlt⟩ hc
      · exact ih b hs ⟨d, hd', hsd, hlt⟩

/-- A surviving candidate has strictly positive score. -/
lemma score_pos (c : Candidate) (h : survives c) : 0 < score c := by
  have harea : (0 : ℚ) < c.area := lt_trans (by norm_num) h.1.1
  have hcirc : (0 : ℚ) < circularity c := lt_trans (by norm_num) h.2.2.1
  exact mul_pos hcirc harea

/-- If no candidate passes the filters the loop state never changes. -/
lemma scanAux_of_no_survivor (l : List Candidate) :
    ∀ (b : Option Candidate) (hs : ℚ), (∀ c ∈ l, ¬ survives c) →
    scanAux b hs l = (b, hs) := by
  induction l with
  | nil => intro b hs _; rfl
  | cons c' rest ih =>
    intro b hs h
    have hc : ¬ (survives c' ∧ hs < score c') :=
      fun hc => h c' (List.mem_cons_self c' rest) hc.1
    simp only [scanAux, if_neg hc]
    exact ih b hs (fun c hc' => h c (List.mem_cons_of_mem c' hc'))

/-- With no surviving candidate, find_best_pupil returns the blink sentinel,
for every ellipse-fitting function. -/
lemma find_best_pupil_sentinel (fit : Candidate → Ellipse)
    (cands : List Candidate) (h : ∀ c ∈ cands, ¬ survives c) :
    find_best_pupil fit cands = (true, 0, 0, 0) := by
  unfold find_best_pupil scanCandidates
  rw [scanAux_of_no_survivor cands none 0 h]

/-- C2 (counterexample): a contour of area 100 — at most 400, hence
discarded according to the claim — is in fact retained by the code's filter
`40 < area < 27000` and even becomes the selected best candidate (here with
perimeter 36 and 12 stored points). -/
theorem c2_counterexample :
    scanCandidates [⟨100, 36, 12⟩] = some ⟨100, 36, 12⟩ ∧
    ¬ (400 < (100 : ℚ) ∧ (100 : ℚ) < 25000) := by
  constructor
  · norm_num [scanCandidates, scanAux, survives, circularity, score, mathPi]
  · norm_num

/-- C2 (amended): a contour is retained as a candidate only if its area lies
strictly inside the open interval (40, 27000) pixels squared: whatever
candidate the threshold scan returns satisfies 40 < area < 27000. -/
theorem c2_area_filter (cands : List Candidate) (c : Candidate)
    (h : scanCandidates cands = some c) : 40 < c.area ∧ c.area < 27000 :=
  (scanCandidates_some cands c h).1.1

theorem c2_area_filter_witness :
    scanCandidates [⟨600, 100, 9⟩] = some ⟨600, 100, 9⟩ ∧
    (40 < (600 : ℚ) ∧ (600 : ℚ) < 27000) :=
  ⟨by norm_num [scanCandidates, scanAux, survives, circularity, score, mathPi],
   c2_area_filter [⟨600, 100, 9⟩] ⟨600, 100, 9⟩
     (by norm_num [scanCandidates, scanAux, survives, circularity, score, mathPi])⟩

/-- C5: the Scorer returns a candidate of strictly maximal score among the
surviving candidates of the whole threshold scan, every surviving candidate
evaluated before it scores strictly less (so on equal scores the earlier
candidate wins), and whenever any surviving candidate exists a candidate is
returned (so a strictly best survivor is returned no matter which thresholds
produced the candidates). -/
theorem c5_scorer (cands : List Candidate) :
    (∀ c, scanCandidates cands = some c →
      survives c ∧ (∀ d ∈ cands, survives d → score d ≤ score c) ∧
      ∃ pre post, cands = pre ++ c :: post ∧
        ∀ d ∈ pre, survives d → score d < score c) ∧
    ((∃ d ∈ cands, survives d) → ∃ c, scanCandidates cands = some c) := by
  constructor
  · intro c h
    refine ⟨(scanCandidates_some cands c h).1,
      (scanCandidates_some cands c h).2.2, ?_⟩
    rcases scanAux_sound cands none 0 c h with ⟨hb, _, _⟩ |
      ⟨pre, post, heq, _, _, hpre, _, _⟩
    · exact absurd hb (by simp)
    · exact ⟨pre, post, heq, hpre⟩
  · intro ⟨d, hd, hsd⟩
    exact Option.isSome_iff_exists.mp
      (scanAux_isSome_of_survivor cands none 0 ⟨d, hd, hsd, score_pos d hsd⟩)

theorem c5_scorer_witness :
    scanCandidates [⟨500, 100, 8⟩, ⟨2000, 200, 10⟩] = some ⟨2000, 200, 10⟩ ∧
    score ⟨500, 100, 8⟩ ≤ score ⟨2000, 200, 10⟩ := by
  have h : scanCandidates [⟨500, 100, 8⟩, ⟨2000, 200, 10⟩] =
      some ⟨2000, 200, 10⟩ := by
    norm_num [scanCandidates, scanAux, survives, circularity, score, mathPi]
  exact ⟨h, ((c5_scorer [⟨500, 100, 8⟩, ⟨2000, 200, 10⟩]).1 ⟨2000, 200, 10⟩ h).2.1
    ⟨500, 100, 8⟩ (by simp)
    (by norm_num [survives, circularity, mathPi])⟩

/-- C7: when no candidate survives all filters, find_best_pupil returns the
blink sentinel (blink true, cx = cy = area = 0); the result is the same for
every ellipse-fitting function, so no ellipse fit is needed, and the
no-detection case is an ordinary return value, not an error. -/
theorem c7_no_detection (fit : Candidate → Ellipse) (cands : List Candidate)
    (h : ∀ c ∈ cands, ¬ survives c) :
    find_best_pupil fit cands = (true, 0, 0, 0) :=
  find_best_pupil_sentinel fit cands h

theorem c7_no_detection_witness :
    find_best_pupil (fun _ => ⟨0, 0, 0, 0⟩) [⟨10, 4, 3⟩] = (true, 0, 0, 0) :=
  c7_no_detection (fun _ => ⟨0, 0, 0, 0⟩) [⟨10, 4, 3⟩]
    (by norm_num [survives, circularity, mathPi])

/-- Rounding half to even fixes integers. -/
lemma roundHalfEven_intCast (z : ℤ) : roundHalfEven (z : ℚ) = z := by
  norm_num [roundHalfEven, Int.floor_intCast]

/-- Python's round(x, 2) fixes half-integers, in particular every value
cv2.contourArea can return on an integer contour. -/
lemma pyRound2_int_half (k : ℤ) : pyRound2 ((k : ℚ) / 2) = (k : ℚ) / 2 := by
  have h : ((k : ℚ) / 2) * 100 = ((50 * k : ℤ) : ℚ) := by push_cast; ring
  rw [pyRound2, h, roundHalfEven_intCast]
  push_cast; ring

/-- C4 (counterexample): a selected candidate of area 26000 — outside the
claimed range (400, 25000) — yields a record with blink false and area 26000,
because the code's own filter bound is 27000. -/
theorem c4_counterexample :
    find_best_pupil (fun _ => ⟨160, 120, 180, 180⟩) [⟨26000, 600, 12⟩] =
      (false, 160, 120, 26000) ∧
    ¬ ((26000 : ℚ) < 25000) := by
  constructor
  · norm_num [find_best_pupil, scanCandidates, scanAux, survives, circularity,
      score, mathPi, pyRound2, roundHalfEven, Int.fract]
  · norm_num

/-- C4 (amended): when the blink flag is true, the reported cx, cy and area
are all exactly 0; when it is false, the reported area is positive and
satisfies 400 ≤ area < 27000.  The hypothesis that every candidate area is a
half-integer reflects cv2.contourArea on integer contours (Green's formula
yields a multiple of 1/2). -/
theorem c4_record_invariant (fit : Candidate → Ellipse) (cands : List Candidate)
    (hhalf : ∀ c ∈ cands, ∃ k : ℤ, c.area = (k : ℚ) / 2) :
    ((find_best_pupil fit cands).1 = true →
      (find_best_pupil fit cands).2.1 = 0 ∧
      (find_best_pupil fit cands).2.2.1 = 0 ∧
      (find_best_pupil fit cands).2.2.2 = 0) ∧
    ((find_best_pupil fit cands).1 = false →
      0 < (find_best_pupil fit cands).2.2.2 ∧
      400 ≤ (find_best_pupil fit cands).2.2.2 ∧
      (find_best_pupil fit cands).2.2.2 < 27000) := by
  cases hscan : scanCandidates cands with
  | none => simp [find_best_pupil, hscan]
  | some c =>
    have hsv := (scanCandidates_some cands c hscan).1
    have hmem := (scanCandidates_some cands c hscan).2.1
    obtain ⟨k, hk⟩ := hhalf c hmem
    by_cases hb : (fit c).h < (fit c).w * (1/5) ∨ c.area < 400
    · simp only [find_best_pupil, hscan, if_pos hb]
      exact ⟨fun _ => ⟨trivial, trivial, trivial⟩, fun h => by simp at h⟩
    · have h400 : 400 ≤ c.area := le_of_not_lt (fun hlt => hb (Or.inr hlt))
      have hround : pyRound2 c.area = c.area := by
        rw [hk]; exact pyRound2_int_half k
      simp only [find_best_pupil, hscan, if_neg hb]
      refine ⟨fun h => by simp at h, fun _ => ?_⟩
      show 0 < pyRound2 c.area ∧ 400 ≤ pyRound2 c.area ∧ pyRound2 c.area < 27000
      rw [hround]
      exact ⟨lt_of_lt_of_le (by norm_num) h400, h400, hsv.1.2⟩

theorem c4_record_invariant_witness :
    (find_best_pupil (fun _ => ⟨100, 100, 50, 40⟩) [⟨500, 80, 8⟩]).1 = false ∧
    400 ≤ (find_best_pupil (fun _ => ⟨100, 100, 50, 40⟩) [⟨500, 80, 8⟩]).2.2.2 := by
  have hfalse : (find_best_pupil (fun _ => ⟨100, 100, 50, 40⟩)
      [⟨500, 80, 8⟩]).1 = false := by
    norm_num [find_best_pupil, scanCandidates, scanAux, survives, circularity,
      score, mathPi]
  exact ⟨hfalse, ((c4_record_invariant (fun _ => ⟨100, 100, 50, 40⟩) [⟨500, 80, 8⟩]
    (fun c hc => by rw [List.mem_singleton.mp hc]; exact ⟨1000, by norm_num⟩)).2
    hfalse).2.1⟩

/-- C6: for a winning candidate `c` with fitted ellipse `fit c`, the blink
flag is true exactly when the ellipse bounding-box height is below 0.20 times
its width or the candidate area is below 400; and when the flag is false the
record carries the fitted centre and the candidate area, each rounded to two
decimal places by Python's round. -/
theorem c6_blink_classifier (fit : Candidate → Ellipse) (cands : List Candidate)
    (c : Candidate) (hscan : scanCandidates cands = some c) :
    ((find_best_pupil fit cands).1 = true ↔
      ((fit c).h < (fit c).w * (1/5) ∨ c.area < 400)) ∧
    ((find_best_pupil fit cands).1 = false →
      find_best_pupil fit cands =
        (false, pyRound2 (fit c).cx, pyRound2 (fit c).cy, pyRound2 c.area)) := by
  by_cases hb : (fit c).h < (fit c).w * (1/5) ∨ c.area < 400
  · simp only [find_best_pupil, hscan, if_pos hb]
    exact ⟨iff_of_true trivial hb, fun h => by simp at h⟩
  · simp only [find_best_pupil, hscan, if_neg hb]
    exact ⟨iff_of_false (by simp) hb, fun _ => trivial⟩

theorem c6_blink_classifier_witness :
    scanCandidates [⟨2000, 170, 20⟩] = some ⟨2000, 170, 20⟩ ∧
    find_best_pupil (fun _ => ⟨321/2, 120, 60, 50⟩) [⟨2000, 170, 20⟩] =
      (false, pyRound2 (321/2), pyRound2 120, pyRound2 2000) := by
  have h : scanCandidates [⟨2000, 170, 20⟩] = some ⟨2000, 170, 20⟩ := by
    norm_num [scanCandidates, scanAux, survives, circularity, score, mathPi]
  refine ⟨h, (c6_blink_classifier (fun _ => ⟨321/2, 120, 60, 50⟩)
    [⟨2000, 170, 20⟩] ⟨2000, 170, 20⟩ h).2 ?_⟩
  norm_num [find_best_pupil, scanCandidates, scanAux, survives, circularity,
    score, mathPi]

/-- C10: with no camera handle held (session never started or already
ended), process_frame returns None, raises nothing, and leaves the whole
tracker state — including the frame counter — unchanged. -/
theorem c10_no_handle (pupil : Frame → Bool × ℚ × ℚ × ℚ) (s : PupilTracker)
    (captured : Option Frame) (h : s.picam2 = false) :
    process_frame pupil s captured = (s, none) := by
  simp [process_frame, h]

theorem c10_no_handle_witness :
    process_frame (fun _ => (true, 0, 0, 0)) ⟨false, 7, 1⟩ (some [[0]]) =
      (⟨false, 7, 1⟩, none) :=
  c10_no_handle (fun _ => (true, 0, 0, 0)) ⟨false, 7, 1⟩ (some [[0]]) rfl

/-- end_session on a tracker with no handle does nothing. -/
lemma end_session_of_closed (s : PupilTracker) (h : s.picam2 = false) :
    end_session s = s := by
  simp [end_session, h]

/-- C9: session teardown is idempotent and stops the camera exactly once:
from a state holding a handle, any positive number of end_session calls
leaves the stop counter at exactly one more than before and the handle
cleared, and a repeated end_session is a no-op. -/
theorem c9_teardown_once (s : PupilTracker) (k : ℕ) (hcam : s.picam2 = true)
    (hk : 1 ≤ k) :
    (end_session^[k] s).stops = s.stops + 1 ∧
    (end_session^[k] s).picam2 = false ∧
    end_session (end_session s) = end_session s := by
  obtain ⟨j, rfl⟩ : ∃ j, k = j + 1 := ⟨k - 1, by omega⟩
  have h1 : end_session s = { s with picam2 := false, stops := s.stops + 1 } := by
    simp [end_session, hcam]
  have hfix : end_session (end_session s) = end_session s := by
    rw [h1]; exact end_session_of_closed _ rfl
  have hiter : end_session^[j + 1] s = end_session s := by
    rw [Function.iterate_succ_apply]
    exact Function.iterate_fixed hfix j
  rw [hiter, h1]
  exact ⟨rfl, rfl, end_session_of_closed _ rfl⟩

theorem c9_teardown_once_witness :
    (end_session^[2] ⟨true, 5, 0⟩).stops = 0 + 1 ∧
    (end_session^[2] ⟨true, 5, 0⟩).picam2 = false :=
  ⟨(c9_teardown_once ⟨true, 5, 0⟩ 2 rfl (by norm_num)).1,
   (c9_teardown_once ⟨true, 5, 0⟩ 2 rfl (by norm_num)).2.1⟩

/-- C3 (counterexample): with the camera open, a capture failure still
advances the frame counter (the increment precedes the None check), so the
records emitted around a failed capture carry indices 1 and 3: two
consecutive emitted records differing by more than 1. -/
theorem c3_counterexample :
    ((runTrace (fun _ => (false, 0, 0, 500)) ⟨true, 0, 0⟩
        [some [[0]], none, some [[0]]]).2.filterMap id).map
      (fun r => r.frame_index) = [1, 3] ∧
    (runTrace (fun _ => (false, 0, 0, 500)) ⟨true, 0, 0⟩
        [some [[0]], none, some [[0]]]).1.frame_count = 3 ∧
    (3 : ℕ) ≠ 1 + 1 := by
  refine ⟨?_, ?_, by norm_num⟩ <;>
    simp [runTrace, process_frame, List.filterMap]

/-- C3 (amended): while the camera handle is open the frame counter advances
by exactly 1 on every process_frame call, successful or not; the record
emitted by the i-th call (0-based) of a session started at counter value n
has frame index n + i + 1, hence indices start at 1 on a fresh session and
consecutive successful calls emit consecutive indices, but a capture failure
between two successes makes their indices differ by more than 1. -/
theorem c3_frame_counter (pupil : Frame → Bool × ℚ × ℚ × ℚ)
    (s : PupilTracker) (caps : List (Option Frame)) (hcam : s.picam2 = true) :
    (runTrace pupil s caps).1.frame_count = s.frame_count + caps.length ∧
    ∀ i r, (runTrace pupil s caps).2.get? i = some (some r) →
      r.frame_index = s.frame_count + i + 1 := by
  induction caps generalizing s with
  | nil => simp [runTrace]
  | cons cap rest ih =>
    have hs1 : (process_frame pupil s cap).1 =
        { s with frame_count := s.frame_count + 1 } := by
      cases cap <;> simp [process_frame, hcam]
    have hcam' : ({ s with frame_count := s.frame_count + 1 } :
        PupilTracker).picam2 = true := hcam
    obtain ⟨ihc, ihr⟩ := ih { s with frame_count := s.frame_count + 1 } hcam'
    constructor
    · show (runTrace pupil (process_frame pupil s cap).1 rest).1.frame_count = _
      rw [hs1, ihc]
      simp [List.length_cons]
      omega
    · intro i r h
      match i with
      | 0 =>
        have h0 : (process_frame pupil s cap).2 = some r := by
          simpa [runTrace] using h
        cases cap with
        | none => simp [process_frame, hcam] at h0
        | some fr =>
          have hr : (⟨s.frame_count + 1, (pupil fr).1, (pupil fr).2.1,
              (pupil fr).2.2.1, (pupil fr).2.2.2⟩ : MetricsRecord) = r := by
            simpa [process_frame, hcam] using h0
          rw [← hr]
      | Nat.succ i =>
        have h' : (runTrace pupil (process_frame pupil s cap).1 rest).2.get? i =
            some (some r) := by
          simpa [runTrace] using h
        rw [hs1] at h'
        have := ihr i r h'
        simp only [this]
        omega

theorem c3_frame_counter_witness :
    (runTrace (fun _ => (true, 0, 0, 0)) ⟨true, 0, 0⟩
      [some [[0]], some [[0]]]).1.frame_count = 0 + 2 :=
  (c3_frame_counter (fun _ => (true, 0, 0, 0)) ⟨true, 0, 0⟩
    [some [[0]], some [[0]]] rfl).1

/-- Rounding half to even never exceeds any integer bound strictly above the
value by half. -/
lemma roundHalfEven_le_of_lt (q : ℚ) (n : ℤ) (h : q < (n : ℚ) + 1/2) :
    roundHalfEven q ≤ n := by
  have hq : (⌊q⌋ : ℚ) ≤ q := Int.floor_le q
  unfold roundHalfEven
  split_ifs with h1 h2 h3
  · have hlt : ((⌊q⌋ : ℤ) : ℚ) < (n : ℚ) + 1 := by linarith
    have : ⌊q⌋ < n + 1 := by exact_mod_cast hlt
    omega
  · have hlt : ((⌊q⌋ : ℤ) : ℚ) < (n : ℚ) := by linarith
    have : ⌊q⌋ < n := by exact_mod_cast hlt
    omega
  · have hle : (1 : ℚ)/2 ≤ q - ⌊q⌋ := le_of_not_lt h1
    have hlt : ((⌊q⌋ : ℤ) : ℚ) < (n : ℚ) := by linarith
    have : ⌊q⌋ < n := by exact_mod_cast hlt
    omega
  · have hle : (1 : ℚ)/2 ≤ q - ⌊q⌋ := le_of_not_lt h1
    have hlt : ((⌊q⌋ : ℤ) : ℚ) < (n : ℚ) := by linarith
    have : ⌊q⌋ < n := by exact_mod_cast hlt
    omega

/-- The saturation cast stays below 255 on inputs at most 254. -/
lemma satU8_lt_255 (z : ℤ) (h : z ≤ 254) : satU8 z < 255 := by
  unfold satU8
  omega

/-- C1 (counterexample): on the non-uniform frame [[100, 200]] (minimum 100,
maximum 200), the contrast stretch maps the minimum sample to 152, not 0:
cv2.convertScaleAbs applies the scale factor to the raw sample before the
-min offset. -/
theorem c1_counterexample :
    frameMin [[100, 200]] = 100 ∧ frameMax [[100, 200]] = 200 ∧
    stretchFrame [[100, 200]] = [[152, 255]] ∧ (152 : ℕ) ≠ 0 := by
  refine ⟨by decide, by decide, ?_, by decide⟩
  norm_num [stretchFrame, stretchSample, convertScaleAbsSample, roundHalfEven,
    satU8, frameMin, frameMax, abs_of_nonneg, Int.fract, min_def, max_def]
  decide

/-- C1 (amended): the contrast stretch maps sample x to the 8-bit saturation
of round(x * 255/(max - min + 1) - min), the scale being applied before the
offset; hence a sample equal to the minimum maps to 0 when the frame minimum
is 0 (not in general), and for such frames a sample equal to the maximum maps
strictly below 255 — max reaches 255 only through saturation on frames with
positive minimum. -/
theorem c1_contrast_stretch (f : List (List ℕ)) (hmin : frameMin f = 0)
    (hpos : 0 < frameMax f) (hle : frameMax f ≤ 255) :
    stretchSample f (frameMin f) = 0 ∧ stretchSample f (frameMax f) < 255 := by
  constructor
  · unfold stretchSample convertScaleAbsSample
    rw [hmin]
    norm_num [roundHalfEven, satU8]
  · unfold stretchSample convertScaleAbsSample
    rw [hmin]
    have hq : ((frameMax f : ℕ) : ℚ) *
        (255 / ((frameMax f : ℚ) - ((0 : ℕ) : ℚ) + 1)) + -((0 : ℕ) : ℚ) =
        (frameMax f : ℚ) * 255 / ((frameMax f : ℚ) + 1) := by
      push_cast
      ring
    rw [hq]
    have hnn : (0 : ℚ) ≤ (frameMax f : ℚ) * 255 / ((frameMax f : ℚ) + 1) := by
      positivity
    rw [abs_of_nonneg hnn]
    have hM : ((frameMax f : ℕ) : ℚ) ≤ 255 := by exact_mod_cast hle
    have hlt : (frameMax f : ℚ) * 255 / ((frameMax f : ℚ) + 1) <
        ((254 : ℤ) : ℚ) + 1/2 := by
      rw [div_lt_iff₀ (by positivity)]
      push_cast
      linarith
    exact satU8_lt_255 _ (roundHalfEven_le_of_lt _ 254 hlt)

theorem c1_contrast_stretch_witness :
    frameMin [[0, 200]] = 0 ∧ 0 < frameMax [[0, 200]] ∧
    frameMax [[0, 200]] ≤ 255 ∧
    stretchSample [[0, 200]] (frameMin [[0, 200]]) = 0 ∧
    stretchSample [[0, 200]] (frameMax [[0, 200]]) < 255 :=
  ⟨by decide, by decide, by decide,
   (c1_contrast_stretch [[0, 200]] (by decide) (by decide) (by decide)).1,
   (c1_contrast_stretch [[0, 200]] (by decide) (by decide) (by decide)).2⟩

/-- getD at an index below the length returns an element of the list. -/
lemma getD_mem {α : Type} (l : List α) : ∀ (n : ℕ) (d : α), n < l.length →
    l.getD n d ∈ l := by
  induction l with
  | nil => intro n d h; simp at h
  | cons a l ih =>
    intro n d h
    cases n with
    | zero => exact List.mem_cons_self a l
    | succ n => exact List.mem_cons_of_mem a (ih n d (by simpa using h))

/-- Folding min over copies of the start value is the identity. -/
lemma foldl_min_const (v : ℕ) : ∀ (xs : List ℕ), (∀ x ∈ xs, x = v) →
    xs.foldl min v = v := by
  intro xs
  induction xs with
  | nil => intro _; rfl
  | cons a l ih =>
    intro h
    have ha : a = v := h a (List.mem_cons_self a l)
    simp only [List.foldl_cons, ha, min_self]
    exact ih (fun x hx => h x (List.mem_cons_of_mem a hx))

/-- Folding max over copies of the start value is the identity. -/
lemma foldl_max_const (v : ℕ) : ∀ (xs : List ℕ), (∀ x ∈ xs, x = v) →
    xs.foldl max v = v := by
  intro xs
  induction xs with
  | nil => intro _; rfl
  | cons a l ih =>
    intro h
    have ha : a = v := h a (List.mem_cons_self a l)
    simp only [List.foldl_cons, ha, max_self]
    exact ih (fun x hx => h x (List.mem_cons_of_mem a hx))

/-- On a uniform frame minMaxLoc reports the uniform value as the minimum. -/
lemma frameMin_uniform (f : List (List ℕ)) (v : ℕ) (hne : f.flatten ≠ [])
    (h : ∀ x ∈ f.flatten, x = v) : frameMin f = v := by
  unfold frameMin
  cases hf : f.flatten with
  | nil => exact absurd hf hne
  | cons x xs =>
    have hx : x = v := h x (by rw [hf]; exact List.mem_cons_self x xs)
    rw [hx]
    exact foldl_min_const v xs
      (fun y hy => h y (by rw [hf]; exact List.mem_cons_of_mem x hy))

/-- On a uniform frame minMaxLoc reports the uniform value as the maximum. -/
lemma frameMax_uniform (f : List (List ℕ)) (v : ℕ) (hne : f.flatten ≠ [])
    (h : ∀ x ∈ f.flatten, x = v) : frameMax f = v := by
  unfold frameMax
  cases hf : f.flatten with
  | nil => exact absurd hf hne
  | cons x xs =>
    have hx : x = v := h x (by rw [hf]; exact List.mem_cons_self x xs)
    rw [hx]
    exact foldl_max_const v xs
      (fun y hy => h y (by rw [hf]; exact List.mem_cons_of_mem x hy))

/-- A clamped index is always in range. -/
lemma clampIdx_lt (i : ℤ) (n : ℕ) (hn : 0 < n) : clampIdx i n < n := by
  unfold clampIdx
  split_ifs <;> omega

/-- Every replicated-border read of a nonempty rectangular uniform image
yields the uniform value. -/
lemma getPix_uniform (img : List (List ℕ)) (v w : ℕ) (hne : img ≠ [])
    (hw : 0 < w) (hrect : ∀ row ∈ img, row.length = w)
    (huni : ∀ row ∈ img, ∀ x ∈ row, x = v) :
    ∀ i j, getPix img i j = v := by
  intro i j
  unfold getPix
  have hlen : 0 < img.length := List.length_pos.mpr hne
  have hrow : img.getD (clampIdx i img.length) [] ∈ img :=
    getD_mem img _ [] (clampIdx_lt _ _ hlen)
  have hrl : 0 < (img.getD (clampIdx i img.length) []).length := by
    rw [hrect _ hrow]; exact hw
  exact huni _ hrow _ (getD_mem _ _ 0 (clampIdx_lt _ _ hrl))

/-- Every sample of a 9 x 9 window of a uniform image is the uniform value. -/
lemma window9_uniform (img : List (List ℕ)) (v w : ℕ) (hne : img ≠ [])
    (hw : 0 < w) (hrect : ∀ row ∈ img, row.length = w)
    (huni : ∀ row ∈ img, ∀ x ∈ row, x = v) (i j : ℕ) :
    ∀ x ∈ window9 img i j, x = v := by
  intro x hx
  unfold window9 at hx
  obtain ⟨di, _, hx'⟩ := List.mem_flatMap.mp hx
  obtain ⟨dj, _, rfl⟩ := List.mem_map.mp hx'
  exact getPix_uniform img v w hne hw hrect huni _ _

/-- A 9 x 9 window is never empty. -/
lemma window9_ne_nil (img : List (List ℕ)) (i j : ℕ) :
    window9 img i j ≠ [] := by
  intro h
  have h0 : (0 : ℕ) ∈ List.range 9 := by decide
  have hmem : getPix img ((i : ℤ) + ((0 : ℕ) : ℤ) - 4)
      ((j : ℤ) + ((0 : ℕ) : ℤ) - 4) ∈
      (List.range 9).map fun (dj : ℕ) =>
        getPix img ((i : ℤ) + ((0 : ℕ) : ℤ) - 4) ((j : ℤ) + (dj : ℤ) - 4) :=
    List.mem_map_of_mem _ h0
  have hmem2 : getPix img ((i : ℤ) + ((0 : ℕ) : ℤ) - 4)
      ((j : ℤ) + ((0 : ℕ) : ℤ) - 4) ∈ window9 img i j := by
    unfold window9
    exact List.mem_flatMap.mpr ⟨0, h0, hmem⟩
  rw [h] at hmem2
  exact absurd hmem2 (List.not_mem_nil _)

/-- The median of a nonempty constant list is the constant. -/
lemma listMedian_const (l : List ℕ) (v : ℕ) (hne : l ≠ [])
    (h : ∀ x ∈ l, x = v) : listMedian l = v := by
  unfold listMedian
  have hperm := List.perm_insertionSort (· ≤ ·) l
  have hpos : 0 < l.length := List.length_pos.mpr hne
  have hlt : l.length / 2 < (l.insertionSort (· ≤ ·)).length := by
    rw [hperm.length_eq]
    omega
  exact h _ (hperm.mem_iff.mp (getD_mem _ _ 0 hlt))

/-- The median blur of a nonempty rectangular uniform image is uniform with
the same value. -/
lemma medianBlur_uniform (img : List (List ℕ)) (v w : ℕ) (hne : img ≠ [])
    (hw : 0 < w) (hrect : ∀ row ∈ img, row.length = w)
    (huni : ∀ row ∈ img, ∀ x ∈ row, x = v) :
    ∀ row ∈ medianBlur img, ∀ x ∈ row, x = v := by
  intro row hrow x hx
  unfold medianBlur at hrow
  obtain ⟨i, _, rfl⟩ := List.mem_map.mp hrow
  obtain ⟨j, _, rfl⟩ := List.mem_map.mp hx
  exact listMedian_const _ v (window9_ne_nil img i j)
    (window9_uniform img v w hne hw hrect huni i j)

/-- C8: an all-uniform frame is safe end to end: the stretch denominator
max - min + 1 equals 1 (no division by zero, the purpose of the +1 guard),
and the frame yields the blink sentinel (blink true, cx = cy = area = 0).
The two hypotheses on `fc` model the documented behaviour of
cv2.findContours on the only binary images a uniform frame can produce: an
image with no foreground pixels has no contours, and an all-foreground image
yields only the full-frame border, which CHAIN_APPROX_SIMPLE stores with at
most its 4 corners — fewer than the 5 points every candidate needs. -/
theorem c8_uniform_frame (fc : List (List ℕ) → List Contour)
    (cArea cLen : Contour → ℚ) (fit : Candidate → Ellipse)
    (f : List (List ℕ)) (v w : ℕ) (hne : f ≠ []) (hw : 0 < w)
    (hrect : ∀ row ∈ f, row.length = w)
    (huni : ∀ row ∈ f, ∀ x ∈ row, x = v)
    (hfc0 : ∀ img : List (List ℕ), (∀ row ∈ img, ∀ x ∈ row, x = 0) →
      fc img = [])
    (hfc255 : ∀ img : List (List ℕ), (∀ row ∈ img, ∀ x ∈ row, x = 255) →
      ∀ ct ∈ fc img, ct.length ≤ 4) :
    findBestPupilFrame fc cArea cLen fit f = (true, 0, 0, 0) ∧
    (frameMax f : ℚ) - (frameMin f : ℚ) + 1 = 1 := by
  have hfl : f.flatten ≠ [] := by
    obtain ⟨r, rest, rfl⟩ := List.exists_cons_of_ne_nil hne
    have hr : 0 < r.length := by
      rw [hrect r (List.mem_cons_self r rest)]; exact hw
    obtain ⟨x, hx⟩ := List.exists_mem_of_ne_nil r (List.length_pos.mp hr)
    exact List.ne_nil_of_mem
      (List.mem_flatten.mpr ⟨r, List.mem_cons_self r rest, hx⟩)
  have hflu : ∀ x ∈ f.flatten, x = v := by
    intro x hx
    obtain ⟨r, hr, hxr⟩ := List.mem_flatten.mp hx
    exact huni r hr x hxr
  have hden : (frameMax f : ℚ) - (frameMin f : ℚ) + 1 = 1 := by
    rw [frameMin_uniform f v hfl hflu, frameMax_uniform f v hfl hflu]
    ring
  refine ⟨?_, hden⟩
  have hsne : stretchFrame f ≠ [] := by
    unfold stretchFrame
    simpa using hne
  have hsrect : ∀ row ∈ stretchFrame f, row.length = w := by
    intro row hrow
    obtain ⟨r, hr, rfl⟩ := List.mem_map.mp hrow
    rw [List.length_map]
    exact hrect r hr
  have hsuni : ∀ row ∈ stretchFrame f, ∀ x ∈ row, x = stretchSample f v := by
    intro row hrow x hx
    obtain ⟨r, hr, rfl⟩ := List.mem_map.mp hrow
    obtain ⟨y, hy, rfl⟩ := List.mem_map.mp hx
    rw [huni r hr y hy]
  have hblur : ∀ row ∈ medianBlur (stretchFrame f), ∀ x ∈ row,
      x = stretchSample f v :=
    medianBlur_uniform (stretchFrame f) (stretchSample f v) w hsne hw
      hsrect hsuni
  have hthr : ∀ (t : ℕ), ∀ row ∈ thresholdInv (medianBlur (stretchFrame f)) t,
      ∀ x ∈ row, x = if t < stretchSample f v then 0 else 255 := by
    intro t row hrow x hx
    unfold thresholdInv at hrow
    obtain ⟨r, hr, rfl⟩ := List.mem_map.mp hrow
    obtain ⟨y, hy, rfl⟩ := List.mem_map.mp hx
    rw [hblur r hr y hy]
  unfold findBestPupilFrame
  apply find_best_pupil_sentinel
  intro c hc
  obtain ⟨t, _, hc'⟩ := List.mem_flatMap.mp hc
  obtain ⟨ct, hct, rfl⟩ := List.mem_map.mp hc'
  by_cases htv : t < stretchSample f v
  · have hz : ∀ row ∈ thresholdInv (medianBlur (stretchFrame f)) t,
        ∀ x ∈ row, x = 0 := by
      intro row hrow x hx
      rw [hthr t row hrow x hx, if_pos htv]
    rw [hfc0 _ hz] at hct
    exact absurd hct (List.not_mem_nil ct)
  · have h255 : ∀ row ∈ thresholdInv (medianBlur (stretchFrame f)) t,
        ∀ x ∈ row, x = 255 := by
      intro row hrow x hx
      rw [hthr t row hrow x hx, if_neg htv]
    have hlen : ct.length ≤ 4 := hfc255 _ h255 ct hct
    intro hs
    have h5 : 5 ≤ (mkCandidate cArea cLen ct).npoints := hs.2.2.2
    simp only [mkCandidate] at h5
    omega

theorem c8_uniform_frame_witness :
    findBestPupilFrame (fun _ => []) (fun _ => 0) (fun _ => 0)
      (fun _ => ⟨0, 0, 0, 0⟩) [[5]] = (true, 0, 0, 0) ∧
    (frameMax [[5]] : ℚ) - (frameMin [[5]] : ℚ) + 1 = 1 :=
  c8_uniform_frame (fun _ => []) (fun _ => 0) (fun _ => 0)
    (fun _ => ⟨0, 0, 0, 0⟩) [[5]] 5 1 (by simp) (by norm_num)
    (by intro row hrow; simp at hrow; simp [hrow])
    (by intro row hrow x hx; simp at hrow; rw [hrow] at hx; simpa using hx)
    (fun _ _ => rfl)
    (by intro img _ ct hct; exact absurd hct (List.not_mem_nil ct))

end VideoProcessing
